import Mathlib

set_option maxRecDepth 40000

namespace Clients

/-!
Verification of the update-expression factory and the attribute-name
rewriting transforms of the clients monorepo.

The definitions below are shallow embeddings of the Python sources:
  - dynamodb_utils (mundi).py   : UpdateExpressionFactory (add_attr, make), dynamize
  - dynamodb_utils (odd-manager).py : dedynamize

Python strings are sequences of Unicode code points; we model them as
List Nat of code points for the name-rewriting transforms (all inputs in
scope are ASCII, and the per-character case functions below are the ASCII
fragment of the Python case mapping, which coincides with Python on ASCII).
The factory itself works on Lean String values.
-/

/-! ### ASCII code-point case functions (Python `str.lower`, `str.upper`,
`str.isupper`, `str.title` restricted to ASCII inputs) -/

/-- Python per-character `lower` on ASCII: map A-Z (65-90) to a-z (97-122). -/
def pyLowerCh (c : Nat) : Nat := if 65 ≤ c ∧ c ≤ 90 then c + 32 else c

/-- Python per-character `upper` on ASCII: map a-z (97-122) to A-Z (65-90). -/
def pyUpperCh (c : Nat) : Nat := if 97 ≤ c ∧ c ≤ 122 then c - 32 else c

/-- Python `c.isupper()` for a single ASCII character. -/
def isUpperCh (c : Nat) : Bool := decide (65 ≤ c ∧ c ≤ 90)

/-- A character is cased (ASCII letters); used by Python `str.title`. -/
def isCasedCh (c : Nat) : Bool := decide ((65 ≤ c ∧ c ≤ 90) ∨ (97 ≤ c ∧ c ≤ 122))

/-- Python `str.title` state machine: a cased character following a
non-cased character is uppercased, any other cased character is
lowercased, non-cased characters are kept.  The Bool argument records
whether the previous character was cased. -/
def pyTitleAux : Bool → List Nat → List Nat
  | _, [] => []
  | prevCased, c :: cs =>
    if isCasedCh c then
      (if prevCased then pyLowerCh c else pyUpperCh c) :: pyTitleAux true cs
    else
      c :: pyTitleAux false cs

/-- Python `str.title`. -/
def pyTitle (l : List Nat) : List Nat := pyTitleAux false l

/-- Python `text.split("_")`: split on the underscore (code 95), keeping
empty chunks, as Python does for a one-character separator. -/
def pySplitUS : List Nat → List (List Nat)
  | [] => [[]]
  | c :: cs =>
    match pySplitUS cs with
    | [] => [[]]
    | t :: ts => if c = 95 then [] :: t :: ts else (c :: t) :: ts

/-- Code points of the lowercase token "gsi". -/
def gsiT : List Nat := [103, 115, 105]

/-- Code points of the lowercase token "pk". -/
def pkT : List Nat := [112, 107]

/-- Code points of the lowercase token "sk". -/
def skT : List Nat := [115, 107]

/-- Body of the loop in `dynamize`: `tk.upper()` when `tk.lower()` is one
of "gsi", "pk", "sk", otherwise `tk.title()`. -/
def encBlock (tk : List Nat) : List Nat :=
  if tk.map pyLowerCh = gsiT ∨ tk.map pyLowerCh = pkT ∨ tk.map pyLowerCh = skT then
    tk.map pyUpperCh
  else
    pyTitle tk

/-- Function `dynamize` from dynamodb_utils: split on "_", render each token with
`encBlock`, join with "". -/
def dynamize (l : List Nat) : List Nat :=
  ((pySplitUS l).map encBlock).flatten

/-- Prefix test on code-point lists, as a plain recursive Bool function. -/
def isPre : List Nat → List Nat → Bool
  | [], _ => true
  | _ :: _, [] => false
  | p :: ps, c :: cs => p == c && isPre ps cs

/-- Python `text.replace(old, new)` for a non-empty `old`: scan left to
right, replacing non-overlapping occurrences and continuing after the
inserted replacement. -/
def replaceL (pat rep : List Nat) : List Nat → List Nat
  | [] => []
  | c :: cs =>
    if h : pat ≠ [] ∧ isPre pat (c :: cs) = true then
      rep ++ replaceL pat rep ((c :: cs).drop pat.length)
    else
      c :: replaceL pat rep cs
termination_by l => l.length
decreasing_by
  · simp only [List.length_drop, List.length_cons]
    have hp : 1 ≤ pat.length := by
      cases pat with
      | nil => exact absurd rfl h.1
      | cons q qs => simp
    omega
  · simp

/-- Code points of "GSI". -/
def gsiU : List Nat := [71, 83, 73]

/-- Code points of "PK". -/
def pkU : List Nat := [80, 75]

/-- Code points of "SK". -/
def skU : List Nat := [83, 75]

/-- Code points of "_gsi". -/
def usGsi : List Nat := [95, 103, 115, 105]

/-- Code points of "_pk". -/
def usPk : List Nat := [95, 112, 107]

/-- Code points of "_sk". -/
def usSk : List Nat := [95, 115, 107]

/-- Function `dedynamize` from dynamodb_utils (odd-manager): replace "GSI" by
"_gsi", "PK" by "_pk", "SK" by "_sk" (in that order), expand every
remaining uppercase character into an underscore plus its lowercase form,
and strip one leading underscore.  (The Python source indexes `result[0]`
and therefore raises on an empty input string; the final `match` below is
the embedding of that statement for the non-empty inputs in scope.) -/
def dedynamize (l : List Nat) : List Nat :=
  let t1 := replaceL gsiU usGsi l
  let t2 := replaceL pkU usPk t1
  let t3 := replaceL skU usSk t2
  let r := t3.flatMap (fun c => if isUpperCh c then [95, pyLowerCh c] else [c])
  match r with
  | 95 :: rest => rest
  | r0 => r0

/-- Code points of a Lean string literal, to state concrete examples
readably. -/
def codes (s : String) : List Nat := s.data.map Char.toNat

/-- The transform `dynamize` lifted to Lean strings, used by the factory when building
`ExpressionAttributeNames`. -/
def dynamizeS (s : String) : String :=
  String.mk ((dynamize (s.data.map Char.toNat)).map Char.ofNat)

/-! ### The update-expression factory (dynamodb_utils (mundi).py) -/

/-- A Python value in the scope of the factory: the absence marker `None`
or a string.  (Attribute values are `Any` in the source; every claim in
scope uses strings and `None`.) -/
inductive DVal where
  | vnone : DVal
  | vstr : String → DVal
deriving DecidableEq, Repr

/-- A Python dict modelled as an insertion-ordered association list. -/
abbrev Dict := List (String × DVal)

/-- Python dict lookup `d[k]` / `k in d` (first matching key). -/
def dlookup : Dict → String → Option DVal
  | [], _ => none
  | (k, v) :: rest, n => if k = n then some v else dlookup rest n

/-- Python dict assignment `d[k] = v`: replace in place if the key is
present, else append at the end. -/
def dinsert : Dict → String → DVal → Dict
  | [], k, v => [(k, v)]
  | (k0, v0) :: rest, k, v =>
    if k0 = k then (k, v) :: rest else (k0, v0) :: dinsert rest k v

/-- Python `d.update(other)`: assign every pair of `other` in order. -/
def dupdate (d : Dict) (other : Dict) : Dict :=
  other.foldl (fun acc kv => dinsert acc kv.1 kv.2) d

/-- Python `d.keys()` (as a list, in dict order). -/
def dkeys (d : Dict) : List String := d.map (fun kv => kv.1)

/-- Python `d.values()` (as a list, in dict order). -/
def dvalues (d : Dict) : List DVal := d.map (fun kv => kv.2)

/-- The `ReturnValuesEnum` of the source. -/
inductive ReturnValuesEnum where
  | NONE | ALL_OLD | UPDATED_OLD | ALL_NEW | UPDATED_NEW
deriving DecidableEq, Repr

/-- The `.value` of each `ReturnValuesEnum` member. -/
def ReturnValuesEnum.value : ReturnValuesEnum → String
  | .NONE => "NONE"
  | .ALL_OLD => "ALL_OLD"
  | .UPDATED_OLD => "UPDATED_OLD"
  | .ALL_NEW => "ALL_NEW"
  | .UPDATED_NEW => "UPDATED_NEW"

/-- The exceptions raised by the factory:
`IndexValueNoneError`, `NoAttrsAdded`, `ValueError` (argument pairing),
and `AttributeValuesConflict` carrying the attribute name and the two
conflicting values. -/
inductive DynErr where
  | indexValueNone : DynErr
  | noAttrsAdded : DynErr
  | valueError : DynErr
  | attrValuesConflict : String → DVal → DVal → DynErr
deriving DecidableEq, Repr

/-- The mutable state of `UpdateExpressionFactory`. -/
structure Factory where
  pk : String
  sk : String
  to_update_if_not_exists : Dict
  to_update_if_not_exists_ix : Dict
  to_update : Dict
  to_update_ix : Dict
deriving DecidableEq, Repr

/-- Constructor `UpdateExpressionFactory.__init__`. -/
def Factory.init (pk sk : String) : Factory := ⟨pk, sk, [], [], [], []⟩

/-- Method `_add_attr_to_update_if_not_exists`: the main entry is stored first;
only then, when a non-empty `indexes` dict is supplied (`if indexes:` is
false for `None` and for `{}`), the `None`-value check runs and the index
bucket is updated.  The returned pair is (raised exception or unit, state
after the call). -/
def addAttrIfNotExists (f : Factory) (n : String) (v : DVal) (ixs : Option Dict) :
    Except DynErr Unit × Factory :=
  let f1 := { f with to_update_if_not_exists := dinsert f.to_update_if_not_exists n v }
  match ixs with
  | none => (.ok (), f1)
  | some d =>
    if d.isEmpty then (.ok (), f1)
    else if DVal.vnone ∈ dvalues d then (.error .indexValueNone, f1)
    else (.ok (),
      { f1 with to_update_if_not_exists_ix := dupdate f1.to_update_if_not_exists_ix d })

/-- Method `_add_attr_to_update`: same shape as `addAttrIfNotExists` on the
always-write buckets. -/
def addAttrToUpdate (f : Factory) (n : String) (v : DVal) (ixs : Option Dict) :
    Except DynErr Unit × Factory :=
  let f1 := { f with to_update := dinsert f.to_update n v }
  match ixs with
  | none => (.ok (), f1)
  | some d =>
    if d.isEmpty then (.ok (), f1)
    else if DVal.vnone ∈ dvalues d then (.error .indexValueNone, f1)
    else (.ok (), { f1 with to_update_ix := dupdate f1.to_update_ix d })

/-- Method `UpdateExpressionFactory.add_attr`. -/
def Factory.add_attr (f : Factory) (n : String) (v : DVal) (ixs : Option Dict)
    (do_skip_if_existing : Bool) : Except DynErr Unit × Factory :=
  if do_skip_if_existing then addAttrIfNotExists f n v ixs
  else addAttrToUpdate f n v ixs

/-- The value returned by `make` is a Python dict of strings and nested
dicts; we model it as a JSON-like tree. -/
inductive J where
  | null : J
  | str : String → J
  | obj : List (String × J) → J
deriving Repr

/-- Embed a stored attribute value into the output tree. -/
def DVal.toJ : DVal → J
  | .vnone => .null
  | .vstr s => .str s

/-- Python truthiness of the optional `table_name` argument (`None` and
the empty string are falsy). -/
def truthyName : Option String → Bool
  | none => false
  | some s => !s.isEmpty

/-- The `TableName` field value in transaction mode. -/
def tableJ : Option String → J
  | none => .null
  | some s => .str s

/-- The first and third loops of `make` (create-only buckets): walk the
bucket in dict order threading the growing expression string and the
`ExpressionAttributeValues` dict; an entry whose name is also in `other`
is skipped when the values agree and raises `AttributeValuesConflict`
when they differ; otherwise the `if_not_exists` fragment is appended. -/
def ifNotExistsLoop (other : Dict) : Dict → String → Dict → Except DynErr (String × Dict)
  | [], exp, vals => .ok (exp, vals)
  | (n, v) :: rest, exp, vals =>
    match dlookup other n with
    | some w =>
      if v ≠ w then .error (.attrValuesConflict n v w)
      else ifNotExistsLoop other rest exp vals
    | none =>
      ifNotExistsLoop other rest
        (exp ++ ", #" ++ n ++ " = if_not_exists(#" ++ n ++ ", :" ++ n ++ ")")
        (dinsert vals (":" ++ n) v)

/-- The second and fourth loops of `make` (always-write buckets): every
entry appends its unconditional fragment and stores its value. -/
def plainLoop : Dict → String → Dict → String × Dict
  | [], exp, vals => (exp, vals)
  | (n, v) :: rest, exp, vals =>
    plainLoop rest (exp ++ ", #" ++ n ++ " = :" ++ n) (dinsert vals (":" ++ n) v)

/-- First-occurrence deduplication, for the union of attribute names.
(The source iterates a Python set literal `{*keys, ...}` whose order is
unspecified; no claim depends on the order of `ExpressionAttributeNames`,
and the model fixes first-insertion order.) -/
def dedupFirst (l : List String) : List String :=
  l.foldl (fun acc x => if x ∈ acc then acc else acc ++ [x]) []

/-- Method `UpdateExpressionFactory.make`.  Raised exceptions become `.error`;
the method assigns to no `self` field, so it is a pure function of the
accumulated state. -/
def Factory.make (f : Factory) (is_transaction : Bool) (table_name : Option String)
    (return_values : ReturnValuesEnum) : Except DynErr J :=
  if f.to_update_if_not_exists = [] ∧ f.to_update = [] then .error .noAttrsAdded
  else if is_transaction = true ∧ truthyName table_name = false then .error .valueError
  else if is_transaction = false ∧ truthyName table_name = true then .error .valueError
  else if is_transaction = true ∧ return_values ≠ .NONE then .error .valueError
  else
    match ifNotExistsLoop f.to_update f.to_update_if_not_exists "" [] with
    | .error e => .error e
    | .ok (e1, v1) =>
      let r2 := plainLoop f.to_update e1 v1
      match ifNotExistsLoop f.to_update_ix f.to_update_if_not_exists_ix r2.1 r2.2 with
      | .error e => .error e
      | .ok (e3, v3) =>
        let r4 := plainLoop f.to_update_ix e3 v3
        let update_exp := "SET" ++ r4.1.drop 1
        let names := dedupFirst (dkeys f.to_update_if_not_exists
          ++ dkeys f.to_update_if_not_exists_ix ++ dkeys f.to_update ++ dkeys f.to_update_ix)
        let exp_attr_names : List (String × J) :=
          names.map (fun n => ("#" ++ n, J.str (dynamizeS n)))
        let exp_attr_values : List (String × J) := r4.2.map (fun kv => (kv.1, kv.2.toJ))
        let base : List (String × J) :=
          [("Key", .obj [("PK", .str f.pk), ("SK", .str f.sk)]),
           ("UpdateExpression", .str update_exp),
           ("ExpressionAttributeNames", .obj exp_attr_names),
           ("ExpressionAttributeValues", .obj exp_attr_values)]
        if is_transaction then
          .ok (.obj [("Update", .obj (("TableName", tableJ table_name) :: base
            ++ [("ReturnValuesOnConditionCheckFailure", .str "NONE")]))])
        else
          .ok (.obj (base ++ [("ReturnValues", .str return_values.value)]))

/-- State-passing form of `make`: the method body reads `self.*` but
contains no assignment to any `self` field (see `Factory.make`), so the
state component of the result is the input state unchanged. -/
def Factory.makeM (f : Factory) (is_transaction : Bool) (table_name : Option String)
    (return_values : ReturnValuesEnum) : Except DynErr J × Factory :=
  (f.make is_transaction table_name return_values, f)

/-! ### Helpers to inspect the output tree -/

/-- Lookup of a field in an object field list (first match). -/
def jfind : List (String × J) → String → Option J
  | [], _ => none
  | (k, v) :: rest, key => if k = key then some v else jfind rest key

/-- Lookup of a field of an object. -/
def J.getField : J → String → Option J
  | .obj fs, key => jfind fs key
  | _, _ => none

/-- The combined update clause of a compiled expression, in either mode:
nested under "Update" in transaction mode, top-level otherwise. -/
def clauseOf (j : J) : Option String :=
  match j.getField "Update" with
  | some u =>
    match u.getField "UpdateExpression" with
    | some (.str s) => some s
    | _ => none
  | none =>
    match j.getField "UpdateExpression" with
    | some (.str s) => some s
    | _ => none

/-- Prefix test on character lists. -/
def isPreC : List Char → List Char → Bool
  | [], _ => true
  | _ :: _, [] => false
  | p :: ps, c :: cs => p == c && isPreC ps cs

/-- Substring occurrence test on character lists. -/
def hasSubC (pat : List Char) : List Char → Bool
  | [] => isPreC pat []
  | c :: cs => isPreC pat (c :: cs) || hasSubC pat cs

/-- Whether `pat` occurs as a contiguous substring of `s`. -/
def strContains (s pat : String) : Bool := hasSubC pat.data s.data

/-- No field named `k` occurs anywhere in the tree. -/
def J.noKey (k : String) : J → Bool
  | .null => true
  | .str _ => true
  | .obj [] => true
  | .obj ((k0, v) :: rest) => (k0 != k) && v.noKey k && (J.obj rest).noKey k

/-! ### Concrete end-to-end states -/

/-- The builder of the standalone end-to-end example: `region` with its
bound index `gsi_session_pk_region`, added create-only. -/
def c3factory : Factory :=
  (Factory.add_attr (Factory.init "pk1" "sk1") "region" (.vstr "sg-one-north")
    (some [("gsi_session_pk_region", .vstr "sg-one-north")]) true).2

/-- The builder of the transactional end-to-end example: `drivelog` added
always-write. -/
def c5factory : Factory :=
  (Factory.add_attr (Factory.init "pk1" "sk1") "drivelog"
    (.vstr "2022.06.23.16.51.09_g2h-veh-8006") none false).2

/-- A builder state in which `region` is registered create-only as a
plain attribute with value "A" and always-write as an indexed binding
with value "B" (reachable via `add_attr("region","A")` followed by
`add_attr("other","x", indexes={"region": "B"}, do_skip_if_existing=False)`). -/
def c9factory : Factory :=
  ⟨"pk1", "sk1", [("region", .vstr "A")], [], [("other", .vstr "x")],
   [("region", .vstr "B")]⟩

/-- The inner `Update` object expected in the transactional example. -/
def c5update : List (String × J) :=
  [("TableName", .str "MyTable"),
   ("Key", .obj [("PK", .str "pk1"), ("SK", .str "sk1")]),
   ("UpdateExpression", .str "SET #drivelog = :drivelog"),
   ("ExpressionAttributeNames", .obj [("#drivelog", .str "Drivelog")]),
   ("ExpressionAttributeValues",
     .obj [(":drivelog", .str "2022.06.23.16.51.09_g2h-veh-8006")]),
   ("ReturnValuesOnConditionCheckFailure", .str "NONE")]

/-- The argument pairing accepted by `make`: the three `ValueError`
conditions of the source are all false. -/
def ArgsOk (it : Bool) (tn : Option String) (rv : ReturnValuesEnum) : Prop :=
  ¬(it = true ∧ truthyName tn = false)
  ∧ ¬(it = false ∧ truthyName tn = true)
  ∧ ¬(it = true ∧ rv ≠ .NONE)

/-! ### The combined clause as a list of fragments -/

/-- Concatenation of a list of strings. -/
def joinS : List String → String
  | [] => ""
  | s :: rest => s ++ joinS rest

/-- The conditional clause fragment emitted for an attribute name. -/
def condFrag (n : String) : String :=
  ", #" ++ n ++ " = if_not_exists(#" ++ n ++ ", :" ++ n ++ ")"

/-- The unconditional clause fragment emitted for an attribute name. -/
def plainFrag (n : String) : String := ", #" ++ n ++ " = :" ++ n

/-- The fragments the merge loop emits: one conditional fragment per
entry whose name is absent from the other bucket. -/
def ifNotExistsFrags (other : Dict) : Dict → List String
  | [] => []
  | (n, _) :: rest =>
    match dlookup other n with
    | some _ => ifNotExistsFrags other rest
    | none => condFrag n :: ifNotExistsFrags other rest

/-- The fragments an always-write loop emits: one per entry. -/
def plainFrags (d : Dict) : List String := d.map (fun kv => plainFrag kv.1)

/-- All fragments of the combined clause, in emission order. -/
def Factory.frags (f : Factory) : List String :=
  ifNotExistsFrags f.to_update f.to_update_if_not_exists
  ++ plainFrags f.to_update
  ++ ifNotExistsFrags f.to_update_ix f.to_update_if_not_exists_ix
  ++ plainFrags f.to_update_ix

/-- The concrete builder used to witness `c2_equal_values_always_write_wins`:
`a` registered with value `"1"` in both plain buckets. -/
def c2witFactory : Factory :=
  ⟨"p1", "s1", [("a", DVal.vstr "1")], [], [("a", DVal.vstr "1")], []⟩

/-! ### The name-rewrite round trip (C4) -/

/-- A token of the restricted identifier vocabulary: at least two
characters, all lowercase ASCII letters.  (Single-letter tokens can
collide with the `GSI`/`PK`/`SK` markers: e.g. `p_kite` renders as
`PKite`, which the inverse transform reads back as `pkite`.) -/
abbrev goodTok (t : List Nat) : Prop := 2 ≤ t.length ∧ ∀ c ∈ t, 97 ≤ c ∧ c ≤ 122

/-- Join tokens with the underscore, building the identifier. -/
def joinT : List (List Nat) → List Nat
  | [] => []
  | [t] => t
  | t :: ts => t ++ 95 :: joinT ts

/-- No occurrence of a pattern starting with `p0 p1` can start inside the
list: every position holding `p0` is followed inside the list by a
non-`p1` character. -/
def safeChain (p0 p1 : Nat) : List Nat → Prop
  | [] => True
  | [c] => c ≠ p0
  | c :: d :: rest => (c ≠ p0 ∨ d ≠ p1) ∧ safeChain p0 p1 (d :: rest)

/-- Stage 1 of `dedynamize` at block level: replace the `GSI` block. -/
def rgsi (b : List Nat) : List Nat := if b = gsiU then usGsi else b

/-- Stage 2 of `dedynamize` at block level: replace the `PK` block. -/
def rpk (b : List Nat) : List Nat := if b = pkU then usPk else b

/-- Stage 3 of `dedynamize` at block level: replace the `SK` block. -/
def rsk (b : List Nat) : List Nat := if b = skU then usSk else b

/-- Stage 4 of `dedynamize` at block level: expand uppercase characters. -/
def expandB (b : List Nat) : List Nat :=
  b.flatMap (fun c => if isUpperCh c then [95, pyLowerCh c] else [c])

/-- The tokens of the spec example, used to witness the round trip. -/
def c4witTokens : List (List Nat) :=
  [codes "gsi", codes "dataset", codes "summary", codes "sk",
   codes "latest", codes "service", codes "run", codes "at"]

/-- C3: registering `region = "sg-one-north"` with index binding
`gsi_session_pk_region = "sg-one-north"` create-only and compiling in
standalone mode yields a clause containing both `if_not_exists`
fragments, and `ExpressionAttributeValues` mapping `:region` and
`:gsi_session_pk_region` to `"sg-one-north"`. -/
theorem c3_standalone_example :
    ∃ j, c3factory.make false none .NONE = Except.ok j
      ∧ (∃ s, clauseOf j = some s
          ∧ strContains s "#region = if_not_exists(#region, :region)" = true
          ∧ strContains s
              "#gsi_session_pk_region = if_not_exists(#gsi_session_pk_region, :gsi_session_pk_region)"
              = true)
      ∧ (∃ vals, j.getField "ExpressionAttributeValues" = some (.obj vals)
          ∧ (":region", J.str "sg-one-north") ∈ vals
          ∧ (":gsi_session_pk_region", J.str "sg-one-north") ∈ vals) := by
  refine ⟨_, rfl, ⟨_, rfl, rfl, rfl⟩, ⟨_, rfl, ?_, ?_⟩⟩
  · exact List.mem_cons_self _ _
  · exact List.mem_cons_of_mem _ (List.mem_cons_self _ _)

/-- C5: registering `drivelog` always-write and compiling with
`as_transaction=true, table_name="MyTable"` yields an envelope whose only
top-level key is `Update`, containing `TableName`, the `Key`, the clause
`SET #drivelog = :drivelog`, the placeholder maps and
`ReturnValuesOnConditionCheckFailure = "NONE"`, with no `ReturnValues`
field anywhere in the result. -/
theorem c5_transaction_example :
    ∃ u, c5factory.make true (some "MyTable") .NONE = Except.ok (J.obj [("Update", u)])
      ∧ u.getField "TableName" = some (.str "MyTable")
      ∧ u.getField "Key" = some (.obj [("PK", .str "pk1"), ("SK", .str "sk1")])
      ∧ u.getField "UpdateExpression" = some (.str "SET #drivelog = :drivelog")
      ∧ (∃ ns, u.getField "ExpressionAttributeNames" = some (.obj ns))
      ∧ (∃ vs, u.getField "ExpressionAttributeValues" = some (.obj vs))
      ∧ u.getField "ReturnValuesOnConditionCheckFailure" = some (.str "NONE")
      ∧ (J.obj [("Update", u)]).noKey "ReturnValues" = true := by
  refine ⟨J.obj c5update, rfl, rfl, rfl, rfl, ⟨_, rfl⟩, ⟨_, rfl⟩, rfl, ?_⟩
  simp [J.noKey, c5update]

/-- C9: conflict detection is per bucket pair: with `region` create-only
as a plain attribute (value "A") and always-write as an indexed binding
(value "B"), compiling succeeds, the clause contains both the conditional
and the unconditional fragment for `region`, and the single shared value
placeholder `:region` holds the value of the later (indexed always-write)
loop, "B", silently discarding "A". -/
theorem c9_cross_bucket_shadowing :
    ∃ j, c9factory.make false none .NONE = Except.ok j
      ∧ (∃ s, clauseOf j = some s
          ∧ strContains s "#region = if_not_exists(#region, :region)" = true
          ∧ strContains s "#region = :region" = true)
      ∧ (∃ vs, j.getField "ExpressionAttributeValues" = some (.obj vs)
          ∧ jfind vs ":region" = some (.str "B")
          ∧ (vs.map (fun kv => kv.1)).count ":region" = 1) := by
  refine ⟨_, rfl, ⟨_, rfl, rfl, rfl⟩, ⟨_, rfl, rfl, rfl⟩⟩

/-! ### General properties of `add_attr` -/

/-- C6: registering with an index-bindings dict containing at least one
`None` value fails with `IndexValueNoneError`, for either value of the
create-only flag and any main attribute value. -/
theorem c6_index_value_none (f : Factory) (n : String) (v : DVal) (d : Dict)
    (flag : Bool) (hmem : DVal.vnone ∈ dvalues d) :
    (f.add_attr n v (some d) flag).1 = .error .indexValueNone := by
  cases d with
  | nil => simp [dvalues] at hmem
  | cons hd tl =>
    cases flag <;>
      simp [Factory.add_attr, addAttrIfNotExists, addAttrToUpdate, hmem]

/-- Witness for `c6_index_value_none` at a concrete input. -/
theorem c6_index_value_none_witness :
    DVal.vnone ∈ dvalues [("gsi_a", DVal.vnone)]
    ∧ ((Factory.init "p1" "s1").add_attr "a" (.vstr "x")
        (some [("gsi_a", DVal.vnone)]) true).1 = .error .indexValueNone :=
  ⟨by decide,
   c6_index_value_none (Factory.init "p1" "s1") "a" (.vstr "x")
     [("gsi_a", DVal.vnone)] true (by decide)⟩

/-- C10: `add_attr` is not atomic on failure: when an index binding value
is `None`, the error is raised only after the main name-value pair has
been stored in the bucket chosen by the flag, and no index binding is
stored. -/
theorem c10_nonatomic_add_attr_on_error (f : Factory) (n : String) (v : DVal) (d : Dict)
    (hmem : DVal.vnone ∈ dvalues d) :
    f.add_attr n v (some d) true
        = (.error .indexValueNone,
           { f with to_update_if_not_exists := dinsert f.to_update_if_not_exists n v })
      ∧ f.add_attr n v (some d) false
        = (.error .indexValueNone, { f with to_update := dinsert f.to_update n v }) := by
  cases d with
  | nil => simp [dvalues] at hmem
  | cons hd tl =>
    constructor <;>
      simp [Factory.add_attr, addAttrIfNotExists, addAttrToUpdate, hmem]

/-- Witness for `c10_nonatomic_add_attr_on_error` at a concrete input. -/
theorem c10_nonatomic_add_attr_on_error_witness :
    DVal.vnone ∈ dvalues [("gsi_a", DVal.vnone)]
    ∧ (Factory.init "p1" "s1").add_attr "a" (.vstr "x") (some [("gsi_a", DVal.vnone)]) true
        = (.error .indexValueNone,
           { Factory.init "p1" "s1" with
               to_update_if_not_exists := dinsert (Factory.init "p1" "s1").to_update_if_not_exists "a" (.vstr "x") }) :=
  ⟨by decide,
   (c10_nonatomic_add_attr_on_error (Factory.init "p1" "s1") "a" (.vstr "x")
     [("gsi_a", DVal.vnone)] (by decide)).1⟩

/-! ### General properties of `make` -/

/-- Any error of the create-only merge loop is an attribute-values
conflict. -/
theorem ifNotExistsLoop_error_conflict (other : Dict) :
    ∀ (b : Dict) (exp : String) (vals : Dict) (e : DynErr),
      ifNotExistsLoop other b exp vals = .error e →
      ∃ n v w, e = DynErr.attrValuesConflict n v w := by
  intro b
  induction b with
  | nil => intro exp vals e h; simp [ifNotExistsLoop] at h
  | cons hd tl ih =>
    intro exp vals e h
    obtain ⟨n, v⟩ := hd
    simp only [ifNotExistsLoop] at h
    split at h
    · split at h
      · injection h with h2
        exact ⟨_, _, _, h2.symm⟩
      · exact ih _ _ _ h
    · exact ih _ _ _ h

/-- The merge loop either succeeds or raises a conflict. -/
theorem ifNotExistsLoop_shape (other b : Dict) (exp : String) (vals : Dict) :
    (∃ p, ifNotExistsLoop other b exp vals = .ok p)
    ∨ ∃ n v w, ifNotExistsLoop other b exp vals
        = .error (.attrValuesConflict n v w) := by
  cases h : ifNotExistsLoop other b exp vals with
  | ok p => exact Or.inl ⟨p, rfl⟩
  | error e =>
    obtain ⟨n, v, w, rfl⟩ := ifNotExistsLoop_error_conflict other b exp vals e h
    exact Or.inr ⟨n, v, w, rfl⟩

/-- An entry present in the other bucket with a different value makes the
merge loop raise a conflict. -/
theorem ifNotExistsLoop_conflict (other : Dict) (n : String) (v w : DVal)
    (hvw : v ≠ w) (hl : dlookup other n = some w) :
    ∀ (b : Dict), (n, v) ∈ b → ∀ (exp : String) (vals : Dict),
      ∃ n2 v2 w2, ifNotExistsLoop other b exp vals
        = .error (.attrValuesConflict n2 v2 w2) := by
  intro b
  induction b with
  | nil => intro h; simp at h
  | cons hd tl ih =>
    intro hmem exp vals
    obtain ⟨m, u⟩ := hd
    rcases List.mem_cons.mp hmem with heq | htl
    · obtain ⟨rfl, rfl⟩ := Prod.mk.injEq .. ▸ heq
      simp only [ifNotExistsLoop, hl]
      rw [if_pos hvw]
      exact ⟨n, v, w, rfl⟩
    · simp only [ifNotExistsLoop]
      cases hlm : dlookup other m with
      | some u2 =>
        dsimp only
        by_cases hu : u ≠ u2
        · rw [if_pos hu]; exact ⟨m, u, u2, rfl⟩
        · rw [if_neg hu]; exact ih htl _ _
      | none => exact ih htl _ _

/-- When every shared name carries equal values, the merge loop succeeds. -/
theorem ifNotExistsLoop_ok (other : Dict) (b : Dict)
    (h : ∀ n v w, (n, v) ∈ b → dlookup other n = some w → v = w) :
    ∀ (exp : String) (vals : Dict),
      ∃ p, ifNotExistsLoop other b exp vals = .ok p := by
  induction b with
  | nil => intro exp vals; exact ⟨_, rfl⟩
  | cons hd tl ih =>
    intro exp vals
    obtain ⟨m, u⟩ := hd
    have htl : ∀ n v w, (n, v) ∈ tl → dlookup other n = some w → v = w :=
      fun n v w hm hl => h n v w (List.mem_cons_of_mem _ hm) hl
    simp only [ifNotExistsLoop]
    cases hlm : dlookup other m with
    | some u2 =>
      have hu : u = u2 := h m u u2 (List.mem_cons_self _ _) hlm
      dsimp only
      rw [if_neg (not_not_intro hu)]
      exact ih htl _ _
    | none => exact ih htl _ _

/-- C7: `make` fails with `NoAttrsAdded` exactly when both plain buckets
are empty, whatever the arguments; in particular a freshly constructed
builder compiles to that error. -/
theorem c7_no_attrs_error (f : Factory) (it : Bool) (tn : Option String)
    (rv : ReturnValuesEnum) (pk sk : String) :
    (f.make it tn rv = .error .noAttrsAdded
      ↔ f.to_update_if_not_exists = [] ∧ f.to_update = [])
    ∧ (Factory.init pk sk).make it tn rv = .error .noAttrsAdded := by
  constructor
  · constructor
    · intro h
      by_cases hc : f.to_update_if_not_exists = [] ∧ f.to_update = []
      · exact hc
      · exfalso
        simp only [Factory.make, if_neg hc] at h
        split at h
        · exact absurd (Except.error.inj h) (by simp)
        · split at h
          · exact absurd (Except.error.inj h) (by simp)
          · split at h
            · exact absurd (Except.error.inj h) (by simp)
            · split at h
              · next e heq =>
                obtain ⟨n, v, w, rfl⟩ :=
                  ifNotExistsLoop_error_conflict _ _ _ _ _ heq
                exact absurd (Except.error.inj h) (by simp)
              · split at h
                · next e heq =>
                  obtain ⟨n, v, w, rfl⟩ :=
                    ifNotExistsLoop_error_conflict _ _ _ _ _ heq
                  exact absurd (Except.error.inj h) (by simp)
                · split at h <;> simp at h
    · intro ⟨h1, h2⟩
      simp [Factory.make, h1, h2]
  · simp [Factory.make, Factory.init]

/-- C8: compilation is a pure function of the accumulated state: the
state-passing form returns the builder unchanged (also on error), and a
second call on the returned state with equal arguments returns an equal
result. -/
theorem c8_make_pure (f : Factory) (it : Bool) (tn : Option String)
    (rv : ReturnValuesEnum) :
    (f.makeM it tn rv).2 = f
    ∧ ((f.makeM it tn rv).2.makeM it tn rv).1 = (f.makeM it tn rv).1 :=
  ⟨rfl, rfl⟩

/-- C1: a name in both the create-only and the always-write bucket (plain
pair or indexed pair) with unequal values makes `make` fail with an
attribute-values conflict. -/
theorem c1_attribute_conflict (f : Factory) (it : Bool) (tn : Option String)
    (rv : ReturnValuesEnum)
    (hargs : ArgsOk it tn rv)
    (hne : ¬(f.to_update_if_not_exists = [] ∧ f.to_update = []))
    (hconf :
      (∃ n v w, (n, v) ∈ f.to_update_if_not_exists
        ∧ dlookup f.to_update n = some w ∧ v ≠ w)
      ∨ (∃ n v w, (n, v) ∈ f.to_update_if_not_exists_ix
        ∧ dlookup f.to_update_ix n = some w ∧ v ≠ w)) :
    ∃ n v w, f.make it tn rv = .error (.attrValuesConflict n v w) := by
  obtain ⟨ha1, ha2, ha3⟩ := hargs
  simp only [Factory.make, if_neg hne, if_neg ha1, if_neg ha2, if_neg ha3]
  rcases hconf with ⟨n, v, w, hmem, hl, hvw⟩ | ⟨n, v, w, hmem, hl, hvw⟩
  · obtain ⟨n2, v2, w2, hloop⟩ :=
      ifNotExistsLoop_conflict f.to_update n v w hvw hl
        f.to_update_if_not_exists hmem "" []
    rw [hloop]
    exact ⟨n2, v2, w2, rfl⟩
  · rcases ifNotExistsLoop_shape f.to_update f.to_update_if_not_exists "" [] with
      ⟨⟨e1, v1⟩, hok⟩ | ⟨n2, v2, w2, herr⟩
    · rw [hok]
      dsimp only
      obtain ⟨n2, v2, w2, hloop⟩ :=
        ifNotExistsLoop_conflict f.to_update_ix n v w hvw hl
          f.to_update_if_not_exists_ix hmem
          (plainLoop f.to_update e1 v1).1 (plainLoop f.to_update e1 v1).2
      rw [hloop]
      exact ⟨n2, v2, w2, rfl⟩
    · rw [herr]
      exact ⟨n2, v2, w2, rfl⟩

/-- Witness for `c1_attribute_conflict` at a concrete input. -/
theorem c1_attribute_conflict_witness :
    ArgsOk false none .NONE
    ∧ ¬(([("a", DVal.vstr "1")] : Dict) = [] ∧ ([("a", DVal.vstr "2")] : Dict) = [])
    ∧ (("a", DVal.vstr "1") ∈ ([("a", DVal.vstr "1")] : Dict)
        ∧ dlookup [("a", DVal.vstr "2")] "a" = some (.vstr "2")
        ∧ DVal.vstr "1" ≠ DVal.vstr "2")
    ∧ ∃ n v w,
        (⟨"p1", "s1", [("a", .vstr "1")], [], [("a", .vstr "2")], []⟩ : Factory).make
            false none .NONE
          = .error (.attrValuesConflict n v w) :=
  ⟨⟨by decide, by decide, by decide⟩, by decide, ⟨by decide, by decide, by decide⟩,
   c1_attribute_conflict ⟨"p1", "s1", [("a", .vstr "1")], [], [("a", .vstr "2")], []⟩
     false none .NONE ⟨by decide, by decide, by decide⟩ (by decide)
     (Or.inl ⟨"a", .vstr "1", .vstr "2", by decide, by decide, by decide⟩)⟩

theorem joinS_append : ∀ (a b : List String), joinS (a ++ b) = joinS a ++ joinS b := by
  intro a b
  induction a with
  | nil => simp [joinS]
  | cons s rest ih => simp [joinS, ih, String.append_assoc]

theorem str_data_inj {a b : String} (h : a.data = b.data) : a = b := by
  cases a; cases b; exact congrArg String.mk h

theorem plainFrag_injective : Function.Injective plainFrag := by
  intro a b h
  have hd := congrArg String.data h
  simp only [plainFrag, String.data_append] at hd
  have hlen := congrArg List.length hd
  simp only [List.length_append] at hlen
  exact str_data_inj (List.append_inj hd (by simp only [List.length_append]; omega)).2

theorem condFrag_injective : Function.Injective condFrag := by
  intro a b h
  have hd := congrArg String.data h
  simp only [condFrag, String.data_append] at hd
  have hlen := congrArg List.length hd
  simp only [List.length_append] at hlen
  have h1 := List.append_inj hd (by simp only [List.length_append]; omega)
  exact str_data_inj (List.append_inj h1.1 (by simp only [List.length_append]; omega)).2

/-- The merge loop, on success, appends exactly its fragments to the
accumulated expression. -/
theorem ifNotExistsLoop_ok_exp (other : Dict) :
    ∀ (b : Dict) (exp : String) (vals : Dict) (e2 : String) (v2 : Dict),
      ifNotExistsLoop other b exp vals = .ok (e2, v2) →
      e2 = exp ++ joinS (ifNotExistsFrags other b) := by
  intro b
  induction b with
  | nil =>
    intro exp vals e2 v2 h
    simp only [ifNotExistsLoop, Except.ok.injEq, Prod.mk.injEq] at h
    simp [ifNotExistsFrags, joinS, ← h.1]
  | cons hd tl ih =>
    intro exp vals e2 v2 h
    obtain ⟨m, u⟩ := hd
    simp only [ifNotExistsLoop] at h
    simp only [ifNotExistsFrags]
    cases hlm : dlookup other m with
    | some u2 =>
      rw [hlm] at h
      dsimp only at h
      split at h
      · exact absurd h (by simp)
      · exact ih _ _ _ _ h
    | none =>
      rw [hlm] at h
      dsimp only at h
      have := ih _ _ _ _ h
      rw [this]
      simp [joinS, condFrag, String.append_assoc]

/-- The always-write loop appends exactly its fragments. -/
theorem plainLoop_exp :
    ∀ (d : Dict) (exp : String) (vals : Dict),
      (plainLoop d exp vals).1 = exp ++ joinS (plainFrags d) := by
  intro d
  induction d with
  | nil => intro exp vals; simp [plainLoop, plainFrags, joinS]
  | cons hd tl ih =>
    intro exp vals
    obtain ⟨m, u⟩ := hd
    simp only [plainLoop, plainFrags, List.map_cons, joinS]
    rw [ih]
    simp [plainFrag, plainFrags, String.append_assoc]

/-- A name present in `other` contributes no conditional fragment. -/
theorem count_condFrag_of_lookup (other : Dict) (n : String) (w : DVal)
    (hl : dlookup other n = some w) :
    ∀ b : Dict, (ifNotExistsFrags other b).count (condFrag n) = 0 := by
  intro b
  induction b with
  | nil => simp [ifNotExistsFrags]
  | cons hd tl ih =>
    obtain ⟨m, u⟩ := hd
    simp only [ifNotExistsFrags]
    cases hlm : dlookup other m with
    | some u2 => exact ih
    | none =>
      have hmn : m ≠ n := by
        intro hEq; rw [hEq, hl] at hlm; exact absurd hlm (by simp)
      have h1 : condFrag m ≠ condFrag n := fun hEq => hmn (condFrag_injective hEq)
      simp [List.count_cons, ih, h1]

/-- A name not in a create-only bucket contributes no conditional
fragment from it. -/
theorem count_condFrag_not_mem (other : Dict) (n : String) :
    ∀ b : Dict, n ∉ dkeys b → (ifNotExistsFrags other b).count (condFrag n) = 0 := by
  intro b
  induction b with
  | nil => intro _; simp [ifNotExistsFrags]
  | cons hd tl ih =>
    intro hnm
    obtain ⟨m, u⟩ := hd
    simp only [dkeys, List.map_cons, List.mem_cons] at hnm
    push_neg at hnm
    have htl := ih (by simpa [dkeys] using hnm.2)
    simp only [ifNotExistsFrags]
    cases dlookup other m with
    | some u2 => exact htl
    | none =>
      have h1 : condFrag m ≠ condFrag n := fun hEq => hnm.1 (condFrag_injective hEq).symm
      simp [List.count_cons, htl, h1]

theorem plainFrags_eq (d : Dict) : plainFrags d = (dkeys d).map plainFrag := by
  simp only [plainFrags, dkeys, List.map_map]
  rfl

theorem dlookup_some_mem_keys (n : String) (w : DVal) :
    ∀ d : Dict, dlookup d n = some w → n ∈ dkeys d := by
  intro d
  induction d with
  | nil => intro h; simp [dlookup] at h
  | cons hd tl ih =>
    intro h
    obtain ⟨m, u⟩ := hd
    simp only [dlookup] at h
    by_cases hm : m = n
    · simp [dkeys, hm]
    · rw [if_neg hm] at h
      exact List.mem_cons_of_mem _ (ih h)

/-- C2: when a name is registered in both the create-only and the
always-write plain bucket with the same value (and no bucket pair holds a
conflict, and the name is not among the indexed attributes), compilation
succeeds, the combined clause is the concatenation of the emitted
fragments, and that name contributes exactly one fragment: the
unconditional one, with no conditional fragment for it. -/
theorem c2_equal_values_always_write_wins (f : Factory) (it : Bool) (tn : Option String)
    (rv : ReturnValuesEnum) (n : String) (v : DVal)
    (hargs : ArgsOk it tn rv)
    (hplain : ∀ m u w, (m, u) ∈ f.to_update_if_not_exists →
      dlookup f.to_update m = some w → u = w)
    (hix : ∀ m u w, (m, u) ∈ f.to_update_if_not_exists_ix →
      dlookup f.to_update_ix m = some w → u = w)
    (hmem : (n, v) ∈ f.to_update_if_not_exists)
    (hlk : dlookup f.to_update n = some v)
    (hnodup : (dkeys f.to_update).Nodup)
    (hnix1 : n ∉ dkeys f.to_update_if_not_exists_ix)
    (hnix2 : n ∉ dkeys f.to_update_ix) :
    (∃ j, f.make it tn rv = .ok j
        ∧ clauseOf j = some ("SET" ++ (joinS f.frags).drop 1))
    ∧ (ifNotExistsFrags f.to_update f.to_update_if_not_exists).count (condFrag n) = 0
    ∧ (plainFrags f.to_update).count (plainFrag n) = 1
    ∧ (ifNotExistsFrags f.to_update_ix f.to_update_if_not_exists_ix).count (condFrag n) = 0
    ∧ (plainFrags f.to_update_ix).count (plainFrag n) = 0 := by
  obtain ⟨ha1, ha2, ha3⟩ := hargs
  have hne : ¬(f.to_update_if_not_exists = [] ∧ f.to_update = []) :=
    fun hc => List.ne_nil_of_mem hmem hc.1
  obtain ⟨⟨e1, v1⟩, hp1⟩ :=
    ifNotExistsLoop_ok f.to_update f.to_update_if_not_exists hplain "" []
  obtain ⟨⟨e3, v3⟩, hp3⟩ :=
    ifNotExistsLoop_ok f.to_update_ix f.to_update_if_not_exists_ix hix
      (plainLoop f.to_update e1 v1).1 (plainLoop f.to_update e1 v1).2
  have he1 : e1 = joinS (ifNotExistsFrags f.to_update f.to_update_if_not_exists) := by
    have h := ifNotExistsLoop_ok_exp f.to_update f.to_update_if_not_exists "" [] e1 v1 hp1
    simpa using h
  have he3 := ifNotExistsLoop_ok_exp f.to_update_ix f.to_update_if_not_exists_ix
    (plainLoop f.to_update e1 v1).1 (plainLoop f.to_update e1 v1).2 e3 v3 hp3
  have hfinal : (plainLoop f.to_update_ix e3 v3).1 = joinS f.frags := by
    rw [plainLoop_exp, he3, plainLoop_exp, he1]
    simp [Factory.frags, joinS_append, String.append_assoc]
  refine ⟨?_, ?_, ?_, ?_, ?_⟩
  · simp only [Factory.make, if_neg hne, if_neg ha1, if_neg ha2, if_neg ha3]
    rw [hp1]
    dsimp only
    rw [hp3]
    dsimp only
    cases it with
    | true =>
      rw [if_pos rfl]
      refine ⟨_, rfl, ?_⟩
      simp [clauseOf, J.getField, jfind, hfinal]
    | false =>
      rw [if_neg (by simp)]
      refine ⟨_, rfl, ?_⟩
      simp [clauseOf, J.getField, jfind, hfinal]
  · exact count_condFrag_of_lookup f.to_update n v hlk f.to_update_if_not_exists
  · rw [plainFrags_eq, List.count_map_of_injective _ _ plainFrag_injective]
    exact List.count_eq_one_of_mem hnodup (dlookup_some_mem_keys n v f.to_update hlk)
  · exact count_condFrag_not_mem f.to_update_ix n f.to_update_if_not_exists_ix hnix1
  · rw [plainFrags_eq, List.count_map_of_injective _ _ plainFrag_injective]
    exact List.count_eq_zero.mpr hnix2

/-- Witness for `c2_equal_values_always_write_wins` at a concrete input. -/
theorem c2_equal_values_always_write_wins_witness :
    ArgsOk false none .NONE
    ∧ ("a", DVal.vstr "1") ∈ c2witFactory.to_update_if_not_exists
    ∧ dlookup c2witFactory.to_update "a" = some (.vstr "1")
    ∧ (dkeys c2witFactory.to_update).Nodup
    ∧ "a" ∉ dkeys c2witFactory.to_update_if_not_exists_ix
    ∧ "a" ∉ dkeys c2witFactory.to_update_ix
    ∧ ((∃ j, c2witFactory.make false none .NONE = .ok j
          ∧ clauseOf j = some ("SET" ++ (joinS c2witFactory.frags).drop 1))
       ∧ (ifNotExistsFrags c2witFactory.to_update
            c2witFactory.to_update_if_not_exists).count (condFrag "a") = 0
       ∧ (plainFrags c2witFactory.to_update).count (plainFrag "a") = 1
       ∧ (ifNotExistsFrags c2witFactory.to_update_ix
            c2witFactory.to_update_if_not_exists_ix).count (condFrag "a") = 0
       ∧ (plainFrags c2witFactory.to_update_ix).count (plainFrag "a") = 0) :=
  ⟨⟨by decide, by decide, by decide⟩, by decide, by decide, by decide, by decide, by decide,
   c2_equal_values_always_write_wins c2witFactory false none .NONE "a" (.vstr "1")
     ⟨by decide, by decide, by decide⟩
     (by
       intro m u w hm hl
       simp only [c2witFactory, List.mem_singleton] at hm
       obtain ⟨rfl, rfl⟩ := Prod.mk.injEq .. ▸ hm
       simp [c2witFactory, dlookup] at hl
       exact hl)
     (by intro m u w hm; simp [c2witFactory] at hm)
     (by decide) (by decide) (by decide) (by decide) (by decide)⟩

theorem pySplitUS_ne_nil : ∀ l : List Nat, pySplitUS l ≠ [] := by
  intro l
  cases l with
  | nil => simp [pySplitUS]
  | cons c cs =>
    simp only [pySplitUS]
    cases pySplitUS cs with
    | nil => simp
    | cons t ts =>
      by_cases hc : c = 95
      · simp [hc]
      · simp [hc]

theorem pySplitUS_no_sep : ∀ t : List Nat, (∀ c ∈ t, c ≠ 95) → pySplitUS t = [t] := by
  intro t
  induction t with
  | nil => intro _; rfl
  | cons c cs ih =>
    intro h
    have hcs := ih (fun c2 hc2 => h c2 (List.mem_cons_of_mem _ hc2))
    simp only [pySplitUS, hcs]
    rw [if_neg (h c (List.mem_cons_self _ _))]

theorem pySplitUS_append_sep :
    ∀ (t rest : List Nat), (∀ c ∈ t, c ≠ 95) →
      pySplitUS (t ++ 95 :: rest) = t :: pySplitUS rest := by
  intro t
  induction t with
  | nil =>
    intro rest _
    simp only [List.nil_append, pySplitUS]
    cases h : pySplitUS rest with
    | nil => exact absurd h (pySplitUS_ne_nil rest)
    | cons r rs => simp
  | cons c cs ih =>
    intro rest h
    have hcs := ih rest (fun c2 hc2 => h c2 (List.mem_cons_of_mem _ hc2))
    have hcs2 : pySplitUS (cs.append (95 :: rest)) = cs :: pySplitUS rest := hcs
    simp only [List.cons_append, pySplitUS, hcs2]
    rw [if_neg (h c (List.mem_cons_self _ _))]

theorem pySplitUS_joinT :
    ∀ ts : List (List Nat), ts ≠ [] → (∀ t ∈ ts, ∀ c ∈ t, c ≠ 95) →
      pySplitUS (joinT ts) = ts := by
  intro ts
  induction ts with
  | nil => intro h; exact absurd rfl h
  | cons t rest ih =>
    intro _ h
    cases rest with
    | nil => exact pySplitUS_no_sep t (h t (List.mem_cons_self _ _))
    | cons t2 rest2 =>
      have h2 : joinT (t :: t2 :: rest2) = t ++ 95 :: joinT (t2 :: rest2) := rfl
      rw [h2, pySplitUS_append_sep t _ (h t (List.mem_cons_self _ _)),
        ih (by simp) (fun u hu c hc => h u (List.mem_cons_of_mem _ hu) c hc)]

theorem map_pyLowerCh_id (t : List Nat) (h : ∀ c ∈ t, 97 ≤ c ∧ c ≤ 122) :
    t.map pyLowerCh = t := by
  induction t with
  | nil => rfl
  | cons c cs ih =>
    have hc := h c (List.mem_cons_self _ _)
    simp only [List.map_cons, ih (fun d hd => h d (List.mem_cons_of_mem _ hd))]
    congr 1
    simp only [pyLowerCh]
    rw [if_neg (by omega)]

theorem pyTitleAux_true_id (cs : List Nat) (h : ∀ c ∈ cs, 97 ≤ c ∧ c ≤ 122) :
    pyTitleAux true cs = cs := by
  induction cs with
  | nil => rfl
  | cons c cs2 ih =>
    have hc := h c (List.mem_cons_self _ _)
    have hcase : isCasedCh c = true := by
      unfold isCasedCh; exact decide_eq_true (Or.inr hc)
    simp only [pyTitleAux, hcase, if_true]
    rw [ih (fun d hd => h d (List.mem_cons_of_mem _ hd))]
    congr 1
    simp only [pyLowerCh]
    rw [if_neg (by omega)]

theorem pyTitle_good (c : Nat) (cs : List Nat)
    (h : ∀ d ∈ c :: cs, 97 ≤ d ∧ d ≤ 122) :
    pyTitle (c :: cs) = pyUpperCh c :: cs := by
  have hc := h c (List.mem_cons_self _ _)
  have hcase : isCasedCh c = true := by
    unfold isCasedCh; exact decide_eq_true (Or.inr hc)
  simp only [pyTitle, pyTitleAux, hcase, if_true]
  rw [if_neg (by simp), pyTitleAux_true_id cs (fun d hd => h d (List.mem_cons_of_mem _ hd))]

theorem encBlock_ord (c : Nat) (cs : List Nat)
    (hgood : goodTok (c :: cs))
    (hn1 : c :: cs ≠ gsiT) (hn2 : c :: cs ≠ pkT) (hn3 : c :: cs ≠ skT) :
    encBlock (c :: cs) = pyUpperCh c :: cs := by
  have hmap := map_pyLowerCh_id (c :: cs) hgood.2
  simp only [encBlock, hmap]
  rw [if_neg (by simp [hn1, hn2, hn3])]
  exact pyTitle_good c cs hgood.2

theorem safeChain_of_all_ne (p0 p1 : Nat) :
    ∀ l : List Nat, (∀ c ∈ l, c ≠ p0) → safeChain p0 p1 l := by
  intro l
  induction l with
  | nil => intro _; trivial
  | cons c cs ih =>
    intro h
    cases cs with
    | nil => exact h c (List.mem_cons_self _ _)
    | cons d rest =>
      exact ⟨Or.inl (h c (List.mem_cons_self _ _)),
        ih (fun e he => h e (List.mem_cons_of_mem _ he))⟩

theorem not_safeChain_self (p0 p1 : Nat) (pr : List Nat) :
    ¬safeChain p0 p1 (p0 :: p1 :: pr) := by
  intro h
  rcases h.1 with h1 | h1 <;> exact h1 rfl

theorem isPre_append_self : ∀ (pat s : List Nat), isPre pat (pat ++ s) = true := by
  intro pat
  induction pat with
  | nil => intro s; rfl
  | cons p ps ih => intro s; simp [isPre, ih]

theorem replaceL_nil (pat rep : List Nat) : replaceL pat rep [] = [] := by
  rw [replaceL.eq_def]

theorem replaceL_cons (pat rep : List Nat) (c : Nat) (cs : List Nat) :
    replaceL pat rep (c :: cs)
      = if pat ≠ [] ∧ isPre pat (c :: cs) = true
        then rep ++ replaceL pat rep ((c :: cs).drop pat.length)
        else c :: replaceL pat rep cs := by
  rw [replaceL.eq_def]
  rfl

theorem replaceL_cons_self (p0 p1 : Nat) (pr rep s : List Nat) :
    replaceL (p0 :: p1 :: pr) rep ((p0 :: p1 :: pr) ++ s)
      = rep ++ replaceL (p0 :: p1 :: pr) rep s := by
  rw [List.cons_append, List.cons_append, replaceL_cons]
  rw [if_pos ⟨by simp, by
    rw [show p0 :: p1 :: (pr ++ s) = (p0 :: p1 :: pr) ++ s from rfl]
    exact isPre_append_self _ _⟩]
  congr 1
  rw [show p0 :: p1 :: (pr ++ s) = (p0 :: p1 :: pr) ++ s from rfl, List.drop_left]

theorem replaceL_skip (p0 p1 : Nat) (pr rep : List Nat) :
    ∀ (b : List Nat), safeChain p0 p1 b → ∀ s,
      replaceL (p0 :: p1 :: pr) rep (b ++ s)
        = b ++ replaceL (p0 :: p1 :: pr) rep s := by
  intro b
  induction b with
  | nil => intro _ s; simp
  | cons c cs ih =>
    intro hsafe s
    cases cs with
    | nil =>
      have hc : c ≠ p0 := hsafe
      have hpc : p0 ≠ c := Ne.symm hc
      rw [List.cons_append, List.nil_append, replaceL_cons]
      rw [if_neg (by simp [isPre, hpc])]
      simp
    | cons d rest =>
      obtain ⟨h1, h2⟩ := hsafe
      rw [List.cons_append, replaceL_cons]
      rw [if_neg ?hguard]
      case hguard =>
        intro hg
        have hpre := hg.2
        rw [show (c :: (d :: rest ++ s)) = c :: d :: (rest ++ s) from rfl] at hpre
        simp only [isPre, Bool.and_eq_true, beq_iff_eq] at hpre
        rcases h1 with h1 | h1
        · exact h1 hpre.1.symm
        · exact h1 hpre.2.1.symm
      rw [ih h2 s]
      rfl

theorem replaceL_flatten (p0 p1 : Nat) (pr rep : List Nat) :
    ∀ bs : List (List Nat),
      (∀ b ∈ bs, b = p0 :: p1 :: pr ∨ safeChain p0 p1 b) →
      replaceL (p0 :: p1 :: pr) rep bs.flatten
        = (bs.map (fun b => if b = p0 :: p1 :: pr then rep else b)).flatten := by
  intro bs
  induction bs with
  | nil => intro _; simp [replaceL_nil]
  | cons b rest ih =>
    intro h
    have hrest := ih (fun b2 hb2 => h b2 (List.mem_cons_of_mem _ hb2))
    rcases h b (List.mem_cons_self _ _) with hb | hb
    · subst hb
      simp only [List.flatten_cons, List.map_cons]
      rw [replaceL_cons_self, hrest]
      simp
    · have hbne : b ≠ p0 :: p1 :: pr := by
        intro hEq; rw [hEq] at hb; exact not_safeChain_self p0 p1 pr hb
      simp only [List.flatten_cons, List.map_cons, if_neg hbne]
      rw [replaceL_skip p0 p1 pr rep b hb, hrest]

theorem pyUpperCh_bounds (c : Nat) (h : 97 ≤ c ∧ c ≤ 122) :
    65 ≤ pyUpperCh c ∧ pyUpperCh c ≤ 90 ∧ pyLowerCh (pyUpperCh c) = c := by
  have hu : pyUpperCh c = c - 32 := by simp only [pyUpperCh, if_pos h]
  refine ⟨by omega, by omega, ?_⟩
  rw [hu]
  simp only [pyLowerCh]
  rw [if_pos (by omega)]
  omega

theorem expandB_lower_id (l : List Nat) (h : ∀ c ∈ l, 97 ≤ c ∧ c ≤ 122) :
    expandB l = l := by
  induction l with
  | nil => rfl
  | cons c cs ih =>
    have hc := h c (List.mem_cons_self _ _)
    have hup : isUpperCh c = false := by
      simp only [isUpperCh, decide_eq_false_iff_not]
      omega
    simp only [expandB, List.flatMap_cons, hup, if_false]
    have := ih (fun d hd => h d (List.mem_cons_of_mem _ hd))
    simp only [expandB] at this
    simp [this]

theorem safeChain_ord (p0 p1 : Nat) (hp0 : p0 ≤ 90) (hp1 : p1 ≤ 90)
    (U : Nat) (l : List Nat) (hl : ∀ c ∈ l, 97 ≤ c) (hne : l ≠ []) :
    safeChain p0 p1 (U :: l) := by
  cases l with
  | nil => exact absurd rfl hne
  | cons d rest =>
    have hd := hl d (List.mem_cons_self _ _)
    exact ⟨Or.inr (by omega),
      safeChain_of_all_ne p0 p1 _
        (fun c hc => by have := hl c hc; omega)⟩

theorem stage_gsi (bs : List (List Nat))
    (h : ∀ b ∈ bs, b = gsiU ∨ safeChain 71 83 b) :
    replaceL gsiU usGsi bs.flatten = (bs.map rgsi).flatten :=
  replaceL_flatten 71 83 [73] usGsi bs h

theorem stage_pk (bs : List (List Nat))
    (h : ∀ b ∈ bs, b = pkU ∨ safeChain 80 75 b) :
    replaceL pkU usPk bs.flatten = (bs.map rpk).flatten :=
  replaceL_flatten 80 75 [] usPk bs h

theorem stage_sk (bs : List (List Nat))
    (h : ∀ b ∈ bs, b = skU ∨ safeChain 83 75 b) :
    replaceL skU usSk bs.flatten = (bs.map rsk).flatten :=
  replaceL_flatten 83 75 [] usSk bs h

theorem goodTok_shape (t : List Nat) (hg : goodTok t) :
    ∃ c d rest, t = c :: d :: rest := by
  cases t with
  | nil => exact absurd hg.1 (by simp)
  | cons c cs =>
    cases cs with
    | nil => exact absurd hg.1 (by simp)
    | cons d rest => exact ⟨c, d, rest, rfl⟩

theorem ord_ne_markers (U d : Nat) (rest : List Nat) (hd : 97 ≤ d) :
    U :: d :: rest ≠ gsiU ∧ U :: d :: rest ≠ pkU ∧ U :: d :: rest ≠ skU := by
  refine ⟨?_, ?_, ?_⟩ <;> intro hEq <;>
    (injection hEq with e1 e2; injection e2 with e3 e4; omega)

/-- Classification of an encoded token: one of the three markers, or an
ordinary title-cased block. -/
theorem block_cases (t : List Nat) (hg : goodTok t) :
    (t = gsiT ∧ encBlock t = gsiU) ∨ (t = pkT ∧ encBlock t = pkU)
    ∨ (t = skT ∧ encBlock t = skU)
    ∨ (∃ c d rest, t = c :: d :: rest ∧ encBlock t = pyUpperCh c :: d :: rest
        ∧ (97 ≤ c ∧ c ≤ 122) ∧ (97 ≤ d ∧ d ≤ 122)
        ∧ (∀ e ∈ rest, 97 ≤ e ∧ e ≤ 122)) := by
  by_cases h1 : t = gsiT
  · exact Or.inl ⟨h1, by rw [h1]; decide⟩
  by_cases h2 : t = pkT
  · exact Or.inr (Or.inl ⟨h2, by rw [h2]; decide⟩)
  by_cases h3 : t = skT
  · exact Or.inr (Or.inr (Or.inl ⟨h3, by rw [h3]; decide⟩))
  obtain ⟨c, d, rest, rfl⟩ := goodTok_shape t hg
  refine Or.inr (Or.inr (Or.inr ⟨c, d, rest, rfl,
    encBlock_ord c (d :: rest) hg h1 h2 h3, ?_, ?_, ?_⟩))
  · exact hg.2 c (List.mem_cons_self _ _)
  · exact hg.2 d (List.mem_cons_of_mem _ (List.mem_cons_self _ _))
  · exact fun e he =>
      hg.2 e (List.mem_cons_of_mem _ (List.mem_cons_of_mem _ he))

theorem side1 (ts : List (List Nat)) (hgood : ∀ t ∈ ts, goodTok t) :
    ∀ b ∈ ts.map encBlock, b = gsiU ∨ safeChain 71 83 b := by
  intro b hb
  obtain ⟨t, ht, rfl⟩ := List.mem_map.mp hb
  rcases block_cases t (hgood t ht) with ⟨_, he⟩ | ⟨_, he⟩ | ⟨_, he⟩ |
    ⟨c, d, rest, _, he, hc, hd, hrest⟩
  · exact Or.inl he
  · refine Or.inr ?_
    rw [he]
    exact safeChain_of_all_ne 71 83 pkU (by decide)
  · refine Or.inr ?_
    rw [he]
    exact safeChain_of_all_ne 71 83 skU (by decide)
  · refine Or.inr ?_
    rw [he]
    refine safeChain_ord 71 83 (by omega) (by omega) _ _ ?_ (by simp)
    intro e hech
    rcases List.mem_cons.mp hech with rfl | hh
    · omega
    · exact (hrest e hh).1

theorem side2 (ts : List (List Nat)) (hgood : ∀ t ∈ ts, goodTok t) :
    ∀ b ∈ (ts.map encBlock).map rgsi, b = pkU ∨ safeChain 80 75 b := by
  intro b hb
  obtain ⟨b0, hb0, rfl⟩ := List.mem_map.mp hb
  obtain ⟨t, ht, rfl⟩ := List.mem_map.mp hb0
  rcases block_cases t (hgood t ht) with ⟨_, he⟩ | ⟨_, he⟩ | ⟨_, he⟩ |
    ⟨c, d, rest, _, he, hc, hd, hrest⟩
  · rw [he, show rgsi gsiU = usGsi from by decide]
    exact Or.inr (safeChain_of_all_ne 80 75 usGsi (by decide))
  · rw [he]
    exact Or.inl (by decide)
  · rw [he, show rgsi skU = skU from by decide]
    exact Or.inr (safeChain_of_all_ne 80 75 skU (by decide))
  · rw [he]
    have hne := ord_ne_markers (pyUpperCh c) d rest hd.1
    rw [show rgsi (pyUpperCh c :: d :: rest) = pyUpperCh c :: d :: rest from
      by simp only [rgsi, if_neg hne.1]]
    refine Or.inr (safeChain_ord 80 75 (by omega) (by omega) _ _ ?_ (by simp))
    intro e hech
    rcases List.mem_cons.mp hech with rfl | hh
    · omega
    · exact (hrest e hh).1

theorem side3 (ts : List (List Nat)) (hgood : ∀ t ∈ ts, goodTok t) :
    ∀ b ∈ ((ts.map encBlock).map rgsi).map rpk, b = skU ∨ safeChain 83 75 b := by
  intro b hb
  obtain ⟨b1, hb1, rfl⟩ := List.mem_map.mp hb
  obtain ⟨b0, hb0, rfl⟩ := List.mem_map.mp hb1
  obtain ⟨t, ht, rfl⟩ := List.mem_map.mp hb0
  rcases block_cases t (hgood t ht) with ⟨_, he⟩ | ⟨_, he⟩ | ⟨_, he⟩ |
    ⟨c, d, rest, _, he, hc, hd, hrest⟩
  · rw [he, show rpk (rgsi gsiU) = usGsi from by decide]
    exact Or.inr (safeChain_of_all_ne 83 75 usGsi (by decide))
  · rw [he, show rpk (rgsi pkU) = usPk from by decide]
    exact Or.inr (safeChain_of_all_ne 83 75 usPk (by decide))
  · rw [he]
    exact Or.inl (by decide)
  · rw [he]
    have hne := ord_ne_markers (pyUpperCh c) d rest hd.1
    rw [show rpk (rgsi (pyUpperCh c :: d :: rest)) = pyUpperCh c :: d :: rest from
      by simp only [rgsi, rpk, if_neg hne.1, if_neg hne.2.1]]
    refine Or.inr (safeChain_ord 83 75 (by omega) (by omega) _ _ ?_ (by simp))
    intro e hech
    rcases List.mem_cons.mp hech with rfl | hh
    · omega
    · exact (hrest e hh).1

/-- One token through all four inverse stages comes back prefixed with
the underscore. -/
theorem token_pipeline (t : List Nat) (hg : goodTok t) :
    expandB (rsk (rpk (rgsi (encBlock t)))) = 95 :: t := by
  rcases block_cases t hg with ⟨rfl, he⟩ | ⟨rfl, he⟩ | ⟨rfl, he⟩ |
    ⟨c, d, rest, rfl, he, hc, hd, hrest⟩
  · rw [he]; decide
  · rw [he]; decide
  · rw [he]; decide
  · rw [he]
    have hne := ord_ne_markers (pyUpperCh c) d rest hd.1
    have hU := pyUpperCh_bounds c hc
    rw [show rsk (rpk (rgsi (pyUpperCh c :: d :: rest))) = pyUpperCh c :: d :: rest from
      by simp only [rgsi, rpk, rsk, if_neg hne.1, if_neg hne.2.1, if_neg hne.2.2]]
    have hup : isUpperCh (pyUpperCh c) = true := by
      simp only [isUpperCh, decide_eq_true_eq]
      omega
    have hlow := expandB_lower_id (d :: rest) (by
      intro e hech
      rcases List.mem_cons.mp hech with rfl | hh
      · exact hd
      · exact hrest e hh)
    simp only [expandB, List.flatMap_cons, hup, if_true] at *
    rw [hU.2.2]
    simp [hlow]

theorem flatMap_flatten (bs : List (List Nat)) (F : Nat → List Nat) :
    bs.flatten.flatMap F = (bs.map (fun b => b.flatMap F)).flatten := by
  induction bs with
  | nil => simp
  | cons b rest ih => simp [List.flatMap_append, ih]

theorem flatten_map_cons95 :
    ∀ ts : List (List Nat), ts ≠ [] →
      (ts.map (fun t => 95 :: t)).flatten = 95 :: joinT ts := by
  intro ts
  induction ts with
  | nil => intro h; exact absurd rfl h
  | cons t rest ih =>
    intro _
    cases rest with
    | nil => simp [joinT]
    | cons t2 r2 =>
      have h2 := ih (by simp)
      simp only [List.map_cons, List.flatten_cons] at h2 ⊢
      rw [h2]
      show (95 :: t) ++ (95 :: joinT (t2 :: r2)) = 95 :: joinT (t :: t2 :: r2)
      rw [show joinT (t :: t2 :: r2) = t ++ 95 :: joinT (t2 :: r2) from rfl]
      simp

/-- C4: the name-rewriting transform round-trips on identifiers made of
underscore-joined lowercase tokens of the restricted vocabulary
(`goodTok`), and the forward transform maps
`gsi_dataset_summary_sk_latest_service_run_at` to
`GSIDatasetSummarySKLatestServiceRunAt`, title-casing ordinary tokens and
fully upper-casing `gsi`, `pk`, `sk`. -/
theorem c4_name_rewrite_roundtrip (ts : List (List Nat)) (hne : ts ≠ [])
    (hgood : ∀ t ∈ ts, goodTok t) :
    dedynamize (dynamize (joinT ts)) = joinT ts
    ∧ dynamize (codes "gsi_dataset_summary_sk_latest_service_run_at")
      = codes "GSIDatasetSummarySKLatestServiceRunAt" := by
  refine ⟨?_, by decide⟩
  have hsplit : pySplitUS (joinT ts) = ts :=
    pySplitUS_joinT ts hne (fun t ht c hc => by
      have := (hgood t ht).2 c hc; omega)
  have hdyn : dynamize (joinT ts) = (ts.map encBlock).flatten := by
    simp only [dynamize, hsplit]
  rw [hdyn]
  simp only [dedynamize]
  rw [stage_gsi _ (side1 ts hgood), stage_pk _ (side2 ts hgood),
    stage_sk _ (side3 ts hgood)]
  rw [flatMap_flatten]
  have hmaps :
      ((((ts.map encBlock).map rgsi).map rpk).map rsk).map
          (fun b => b.flatMap (fun c => if isUpperCh c then [95, pyLowerCh c] else [c]))
        = ts.map (fun t => 95 :: t) := by
    simp only [List.map_map]
    exact List.map_congr_left (fun t ht => token_pipeline t (hgood t ht))
  rw [hmaps, flatten_map_cons95 ts hne]

/-- Witness for `c4_name_rewrite_roundtrip` at the example identifier. -/
theorem c4_name_rewrite_roundtrip_witness :
    c4witTokens ≠ []
    ∧ (∀ t ∈ c4witTokens, goodTok t)
    ∧ (dedynamize (dynamize (joinT c4witTokens)) = joinT c4witTokens
       ∧ dynamize (codes "gsi_dataset_summary_sk_latest_service_run_at")
         = codes "GSIDatasetSummarySKLatestServiceRunAt") :=
  ⟨by decide, by decide,
   c4_name_rewrite_roundtrip c4witTokens (by decide) (by decide)⟩

end Clients
